import Mathlib

/-!
Shallow embedding of the GraphQL execution core in `src/execution/execute.ts`
(graphql-js, incremental-delivery branch), together with theorems checking the
natural-language specification against it.

Modelling conventions:
* JavaScript runtime values are `JSValue`; numbers are rationals (`ℚ`),
  `undefined` and `null` are distinct constructors, an `Error`-valued result is
  `JSValue.jsError`.  Promises and async iterables do not occur as values: the
  embedding covers the synchronous phase of execution.  The asynchronous data
  promise of a stream/defer payload record is represented symbolically by the
  record's `deferredItem` (the not-yet-completed item) and `parent` (the record
  whose data promise this one is sequenced after).
* Thrown exceptions are modelled with `Except Err`; the mutable `errors` and
  `subsequentPayloads` arrays of the execution context are threaded through
  every function as an explicit `ExecState` (a throw does not roll the state
  back, matching in-place array mutation).
* The mutually recursive executor functions of the source are packaged as one
  fuel-indexed interpreter `interp` over a `Call` type with one constructor per
  source function; per-function wrappers with the source names are defined from
  it.  Fuel bounds the call depth; exhaustion surfaces as a distinguished
  thrown error (unreachable for the concrete programs considered).
* Collaborators that live outside `execute.ts` (collectFields, getVariableValues,
  getArgumentValues, getDirectiveValues, locatedError, the introspection meta
  fields) are modelled from the spec; each such definition says so in its doc
  comment.  Abstract types, `isTypeOf` predicates and `@defer` fragments are
  not exercised by any claim and are not modelled.
-/

set_option maxHeartbeats 1600000

namespace GraphQLExec

/-- Response-path segment: a field response name or a list index.  The source's
`Path` additionally stores the declaring type name on field segments
(`addPath(path, responseName, parentType.name)`), which is used nowhere in the
claims and is dropped; `pathToArray` is then the identity. -/
inductive PathSeg where
  | field (s : String)
  | idx (n : Nat)
deriving DecidableEq, Repr

/-- A path, already in serialized (array) form; `addPath` appends. -/
abbrev Path := List PathSeg

/-- jsutils/Path `addPath`: extend a path by one segment. -/
def addPath (p : Path) (seg : PathSeg) : Path := p ++ [seg]

/-- jsutils/Path `pathToArray` (identity under this representation). -/
def pathToArray (p : Path) : Path := p

/-- A GraphQLError: the message and, once located, the response path.
Source locations (AST nodes) are not modelled. -/
structure Err where
  message : String
  path : Option Path := none
deriving DecidableEq, Repr

/-- JavaScript runtime values, as far as the execution core inspects them. -/
inductive JSValue where
  | null
  | undefined
  | bool (b : Bool)
  | num (q : ℚ)
  | str (s : String)
  | jsError (message : String)
  | arr (items : List JSValue)
  | obj (fields : List (String × JSValue))

/-- Modelled from the spec: `locatedError` (error module, outside execute.ts)
converts a raised error into a located error, preserving an already-located
error unchanged and otherwise attaching the given path array. -/
def locatedError (rawError : Err) (pathArr : Path) : Err :=
  match rawError.path with
  | some _ => rawError
  | none => { rawError with path := some pathArr }

/-- GraphQL output types.  `named` refers to a schema type definition by name;
abstract (interface/union) types are not modelled. -/
inductive GQLType where
  | nonNull (ofType : GQLType)
  | listT (ofType : GQLType)
  | named (name : String)
deriving DecidableEq, Repr

/-- `isNonNullType` from type/definition. -/
def isNonNullType : GQLType → Bool
  | .nonNull _ => true
  | _ => false

/-- The slice of `GraphQLResolveInfo` that `execute.ts` itself reads
(`info.parentType.name` and `info.fieldName` in messages); the remaining
informational fields are not modelled. -/
structure ResolveInfo where
  fieldName : String
  parentTypeName : String
  path : Path

/-- A field resolver.  Argument values and the context value are not modelled
(argument coercion lives in values.ts, outside the sources); a resolver sees
the source value and the resolve info and may return a value or throw. -/
def Resolver := JSValue → ResolveInfo → Except Err JSValue

/-- A field definition on an object type. -/
structure FieldDef where
  name : String
  type : GQLType
  resolve : Option Resolver := none

/-- The data of a GraphQL object type. -/
structure ObjectTypeData where
  name : String
  fields : List FieldDef

/-- A schema type definition: scalar/enum (leaf) with its `serialize`, or an
object type.  Abstract types are not modelled. -/
inductive TypeDef where
  | scalarT (name : String) (serialize : JSValue → JSValue)
  | objectT (o : ObjectTypeData)

/-- Name of a type definition. -/
def TypeDef.typeName : TypeDef → String
  | .scalarT n _ => n
  | .objectT o => o.name

/-- A schema: the root type names and the type definitions. -/
structure Schema where
  queryType : Option String := none
  mutationType : Option String := none
  subscriptionType : Option String := none
  types : List TypeDef := []

/-- `schema.getType(name)`. -/
def Schema.getTypeDef (s : Schema) (n : String) : Option TypeDef :=
  s.types.find? (fun t => t.typeName = n)

/-- A directive occurrence on a field node.  Its argument values are stored
already coerced (literal/variable coercion lives in values.ts, outside the
sources). -/
structure DirectiveNode where
  name : String
  args : List (String × JSValue) := []

/-- A field selection node (`aliasName` is the AST's `alias`).  Fragment
spreads, inline fragments and the `@skip`/`@include`/`@defer` directives are
not modelled (the field collector is external, see `collectFieldsModel`). -/
inductive FieldNode where
  | mk (name : String) (aliasName : Option String) (directives : List DirectiveNode)
       (selectionSet : List FieldNode)

def FieldNode.name : FieldNode → String
  | .mk n _ _ _ => n

def FieldNode.aliasName : FieldNode → Option String
  | .mk _ a _ _ => a

def FieldNode.directives : FieldNode → List DirectiveNode
  | .mk _ _ d _ => d

def FieldNode.selectionSet : FieldNode → List FieldNode
  | .mk _ _ _ s => s

/-- Response name: the alias if set, else the field name. -/
def responseName (node : FieldNode) : String :=
  node.aliasName.getD node.name

/-- Operation kind (`OperationTypeNode`). -/
inductive OpType where
  | query
  | mutation
  | subscription
deriving DecidableEq, Repr

/-- An operation definition node. -/
structure OperationDef where
  name : Option String := none
  operation : OpType := .query
  selectionSet : List FieldNode := []

/-- An executable document definition. -/
inductive Definition where
  | op (d : OperationDef)
  | frag (name : String)
  | other

/-- `ExecutionArgs` (the argument object of `execute`). -/
structure ExecutionArgs where
  schema : Schema
  document : List Definition
  rootValue : JSValue := .undefined
  variableValues : List (String × JSValue) := []
  operationName : Option String := none
  fieldResolver : Option Resolver := none

/-- The immutable part of `ExecutionContext`; its mutable `errors` and
`subsequentPayloads` arrays are threaded separately as `ExecState`.  The
fragment map is kept as the list of fragment names (fragment bodies are never
consulted, see `collectFieldsModel`); type and subscribe resolvers are not
modelled. -/
structure ExecutionContext where
  schema : Schema
  fragments : List String := []
  rootValue : JSValue := .undefined
  operation : OperationDef
  variableValues : List (String × JSValue) := []
  fieldResolver : Resolver

/-- `AsyncPayloadRecord` (source lines 1674-1698).  The data promise is
represented symbolically: `deferredItem` is the item whose completion the
promise performs, and `parent` is the id of the record whose data promise this
one is sequenced after (`parentContext.dataPromise` chaining); `iterator`
holds the id of the source async iterator for stream-iterator records. -/
structure AsyncPayloadRecord where
  id : Nat
  label : Option String := none
  path : Option Path := none
  deferredItem : Option JSValue := none
  parent : Option Nat := none
  iterator : Option Nat := none
  isCompletedIterator : Bool := false
  errors : List Err := []

/-- The mutable state of one execution: the context's append-only `errors` and
`subsequentPayloads` arrays, plus a counter for fresh record ids. -/
structure ExecState where
  errors : List Err := []
  payloads : List AsyncPayloadRecord := []
  nextId : Nat := 0

/-- The active error log (`asyncPayloadRecord?.errors ?? exeContext.errors`):
the record's own log when executing beneath a payload record, else the primary
log. -/
def getLog (rec : Option Nat) (st : ExecState) : List Err :=
  match rec with
  | none => st.errors
  | some id => (((st.payloads.find? (fun r => r.id = id)).map (fun r => r.errors)).getD [])

/-- Write back the active error log selected by `getLog`. -/
def setLog (rec : Option Nat) (st : ExecState) (errs : List Err) : ExecState :=
  match rec with
  | none => { st with errors := errs }
  | some id =>
    { st with payloads :=
        st.payloads.map (fun r => if r.id = id then { r with errors := errs } else r) }

/-- `handleFieldError` (source lines 671-686): a non-nullable return type
re-raises the located error; a nullable one appends it to the given error log
and resolves the field to null. -/
def handleFieldError (error : Err) (returnType : GQLType) (errors : List Err) :
    Except Err JSValue × List Err :=
  if isNonNullType returnType then
    (.error error, errors)
  else
    (.ok .null, errors ++ [error])

/-- `handleFieldError` applied to the active error log of the state. -/
def handleFieldErrorAt (error : Err) (returnType : GQLType) (rec : Option Nat)
    (st : ExecState) : Except Err JSValue × ExecState :=
  let res := handleFieldError error returnType (getLog rec st)
  (res.1, setLog rec st res.2)

/-- `completeLeafValue` (source lines 1067-1079): serialize, and throw if the
serialized result is nullish.  The source message interpolates `inspect` output
of the type and values; the interpolated parts are not modelled. -/
def completeLeafValue (serialize : JSValue → JSValue) (result : JSValue) :
    Except Err JSValue :=
  match serialize result with
  | .null => .error { message := "Expected serialize to return non-nullable value." }
  | .undefined => .error { message := "Expected serialize to return non-nullable value." }
  | v => .ok v

/-- Modelled from the spec: `getDirectiveValues` (values.ts, outside the
sources) returns the coerced argument values of the named directive on the
node, or nothing when the directive is absent. -/
def getDirectiveValues (directiveName : String) (node : FieldNode) :
    Option (List (String × JSValue)) :=
  (node.directives.find? (fun d => d.name = directiveName)).map (fun d => d.args)

/-- Look up a coerced argument value by name. -/
def argLookup (args : List (String × JSValue)) (n : String) : Option JSValue :=
  (args.find? (fun a => a.1 = n)).map (fun a => a.2)

/-- The `@stream` arguments once validated. -/
structure StreamValues where
  initialCount : ℚ
  label : Option String := none
deriving DecidableEq, Repr

/-- `stream.if === false`: strict equality of the coerced `if` argument with
the boolean `false`. -/
def strictEqFalse : Option JSValue → Bool
  | some (.bool false) => true
  | _ => false

/-- `typeof v === 'number'` on an optional coerced value, returning the
number. -/
def asNumber : Option JSValue → Option ℚ
  | some (.num q) => some q
  | _ => none

/-- `typeof stream.label === 'string' ? stream.label : undefined`. -/
def streamLabel (args : List (String × JSValue)) : Option String :=
  match argLookup args "label" with
  | some (.str s) => some s
  | _ => none

/-- `getStreamValues` (source lines 806-845): read the `@stream` directive off
the first field node; absent directive or `if: false` means no streaming;
otherwise `initialCount` must be a number (`typeof === 'number'`) and
non-negative, or an invariant is thrown (`.error`); `label` is kept only when
it is a string.  The counterexample to claim C6 lives at the `q < 0` check:
a non-integer number passes it. -/
def getStreamValues (node? : List FieldNode) : Except Err (Option StreamValues) :=
  match node? with
  | [] => .ok none
  | node :: _ =>
    match getDirectiveValues "stream" node with
    | none => .ok none
    | some args =>
      if strictEqFalse (argLookup args "if") then
        .ok none
      else
        match asNumber (argLookup args "initialCount") with
        | some q =>
          if q < 0 then .error { message := "initialCount must be a positive integer" }
          else .ok (some { initialCount := q, label := streamLabel args })
        | none => .error { message := "initialCount must be a number" }

/-- `executeStreamField` (source lines 1431-1473), synchronous phase: create a
payload record for one list item past `initialCount`, append it to
`subsequentPayloads`, and return it.  The record's data promise — complete the
item, then sequence after `parentContext.dataPromise` — is represented by the
`deferredItem` and `parent` fields. -/
def executeStreamField (itemPath : Path) (item : JSValue) (label : Option String)
    (parentContext : Option Nat) (st : ExecState) : AsyncPayloadRecord × ExecState :=
  let r : AsyncPayloadRecord :=
    { id := st.nextId, label := label, path := some itemPath,
      deferredItem := some item, parent := parentContext }
  (r, { st with payloads := st.payloads ++ [r], nextId := st.nextId + 1 })

/-- Modelled from the spec: the introspection meta field `__schema` (query root
only).  Only its existence and return type matter here. -/
def SchemaMetaFieldDef : FieldDef :=
  { name := "__schema", type := .nonNull (.named "__Schema") }

/-- Modelled from the spec: the introspection meta field `__type` (query root
only). -/
def TypeMetaFieldDef : FieldDef :=
  { name := "__type", type := .named "__Type" }

/-- Modelled from the spec: the meta field `__typename`, available on any type;
its resolver returns the parent type's name. -/
def TypeNameMetaFieldDef : FieldDef :=
  { name := "__typename", type := .nonNull (.named "String"),
    resolve := some (fun _ info => .ok (.str info.parentTypeName)) }

/-- `getFieldDef` (source lines 1367-1388): special-case the three meta fields
(`__schema`/`__type` on the query root, `__typename` anywhere), else look the
field up on the parent type.  The source compares `schema.getQueryType() ===
parentType` by identity; with named types this is a name comparison. -/
def getFieldDef (schema : Schema) (parentType : ObjectTypeData) (fieldNode : FieldNode) :
    Option FieldDef :=
  let fieldName := fieldNode.name
  if fieldName = "__schema" ∧ schema.queryType = some parentType.name then
    some SchemaMetaFieldDef
  else if fieldName = "__type" ∧ schema.queryType = some parentType.name then
    some TypeMetaFieldDef
  else if fieldName = "__typename" then
    some TypeNameMetaFieldDef
  else
    parentType.fields.find? (fun f => f.name = fieldName)

/-- `defaultFieldResolver` (source lines 1344-1354): property access on an
object-like source (function-valued properties are not modelled), `undefined`
otherwise. -/
def defaultFieldResolver : Resolver := fun source info =>
  match source with
  | .obj fields => .ok ((argLookup fields info.fieldName).getD .undefined)
  | _ => .ok .undefined

/-- `buildResolveInfo` (source lines 648-669), restricted to the fields the
executor itself reads. -/
def buildResolveInfo (fieldDef : FieldDef) (parentType : ObjectTypeData) (path : Path) :
    ResolveInfo :=
  { fieldName := fieldDef.name, parentTypeName := parentType.name, path := path }

/-- Insert a field node into a grouped field set under its response name,
creating the group at the end on first occurrence. -/
def insertGrouped : List (String × List FieldNode) → String → FieldNode →
    List (String × List FieldNode)
  | [], rn, node => [(rn, [node])]
  | (k, ns) :: rest, rn, node =>
    if k = rn then (k, ns ++ [node]) :: rest
    else (k, ns) :: insertGrouped rest rn node

/-- Modelled from the spec: the Field Collector `collectFields` (collectFields.ts,
outside the sources), restricted to plain field selections — fragment spreads,
inline fragments and the `@skip`/`@include`/`@defer` directives are not
modelled, so the deferred-patch list is always empty and is omitted.  Groups
selections by response name in first-appearance order. -/
def collectFieldsModel (selections : List FieldNode) : List (String × List FieldNode) :=
  selections.foldl (fun acc node => insertGrouped acc (responseName node) node) []

/-- Modelled from the spec: `collectSubfields` (source lines 72-85 plus
collectFields.ts): merge the sub-selection sets of all field nodes of a group
into one grouped field set.  The memoization of the source is semantically
transparent and not modelled. -/
def collectSubfieldsModel (fieldNodes : List FieldNode) : List (String × List FieldNode) :=
  fieldNodes.foldl
    (fun acc node =>
      node.selectionSet.foldl (fun a n => insertGrouped a (responseName n) n) acc)
    []

/-- The fuel-exhaustion error of the interpreter (an artifact of the embedding;
unreachable for any concrete program given enough fuel). -/
def outOfFuel : Err := { message := "model: out of fuel" }

/-- One pending invocation of a source executor function.  Each constructor
corresponds to one function of `execute.ts` (the two list-loop and field-loop
constructors carry that loop's accumulated state). -/
inductive Call where
  /-- `completeValue` (source lines 709-799). -/
  | completeValue (returnType : GQLType) (fieldNodes : List FieldNode)
      (info : ResolveInfo) (path : Path) (result : JSValue) (rec : Option Nat)
  /-- `completeListValue` (source lines 947-1061), entry: iterable check and
  stream-directive lookup. -/
  | completeListValue (itemType : GQLType) (fieldNodes : List FieldNode)
      (info : ResolveInfo) (path : Path) (result : JSValue) (rec : Option Nat)
  /-- the `for (const item of result)` loop of `completeListValue`
  (source lines 986-1058). -/
  | listLoop (itemType : GQLType) (fieldNodes : List FieldNode) (info : ResolveInfo)
      (path : Path) (stream : Option StreamValues) (items : List JSValue) (index : Nat)
      (rec : Option Nat) (prev : Option Nat) (acc : List JSValue)
  /-- one inline (non-streamed) item completion with its try/catch
  (source lines 991-1056). -/
  | listItemInline (itemType : GQLType) (fieldNodes : List FieldNode)
      (info : ResolveInfo) (path : Path) (index : Nat) (item : JSValue) (rec : Option Nat)
  /-- `executeField` (source lines 562-643). -/
  | executeField (parentType : ObjectTypeData) (source : JSValue)
      (fieldNodes : List FieldNode) (path : Path) (rec : Option Nat)
  /-- the loop of `executeFields` (source lines 515-554). -/
  | executeFieldsLoop (parentType : ObjectTypeData) (source : JSValue) (path : Path)
      (fields : List (String × List FieldNode)) (rec : Option Nat)
      (acc : List (String × JSValue))
  /-- the loop of `executeFieldsSerially` (source lines 477-509); in the
  synchronous phase it differs from `executeFields` only in not taking a
  payload record. -/
  | executeFieldsSerial (parentType : ObjectTypeData) (source : JSValue) (path : Path)
      (fields : List (String × List FieldNode)) (acc : List (String × JSValue))

/-- The synchronous executor of `execute.ts` as one fuel-indexed interpreter;
see `Call` for the correspondence of branches to source functions.  A returned
`JSValue.undefined` plays the role of the source's `undefined` result (only
produced by `executeField` when the field definition is missing); field maps
are returned as `JSValue.obj`, completed lists as `JSValue.arr`. -/
def interp (ctx : ExecutionContext) : Nat → Call → ExecState →
    Except Err JSValue × ExecState
  | 0, _, st => (.error outOfFuel, st)
  | fuel + 1, c, st =>
    match c with
    | .completeValue returnType fieldNodes info path result rec =>
      -- source lines 718-721: an Error-valued result is thrown
      match result with
      | .jsError m => (.error { message := m }, st)
      | _ =>
        match returnType with
        | .nonNull inner =>
          -- source lines 725-741
          match interp ctx fuel (.completeValue inner fieldNodes info path result rec) st with
          | (.ok completed, st') =>
            match completed with
            | .null =>
              (.error { message := "Cannot return null for non-nullable field " ++
                          info.parentTypeName ++ "." ++ info.fieldName ++ "." }, st')
            | v => (.ok v, st')
          | (.error e, st') => (.error e, st')
        | _ =>
          -- source lines 744-746: null/undefined complete to null
          if (match result with | .null => true | .undefined => true | _ => false) then
            (.ok .null, st)
          else
            match returnType with
            | .listT inner =>
              interp ctx fuel (.completeListValue inner fieldNodes info path result rec) st
            | .named n =>
              match ctx.schema.getTypeDef n with
              | some (.scalarT _ serialize) => (completeLeafValue serialize result, st)
              | some (.objectT o) =>
                -- completeObjectValue / collectAndExecuteSubfields (source lines
                -- 1195-1290); `isTypeOf` predicates are not modelled
                interp ctx fuel
                  (.executeFieldsLoop o result path (collectSubfieldsModel fieldNodes) rec [])
                  st
              | none =>
                (.error { message := "Cannot complete value of unexpected output type." }, st)
            | .nonNull _ =>
              -- unreachable (handled above); maps to the closing invariant,
              -- source lines 793-798
              (.error { message := "Cannot complete value of unexpected output type." }, st)
    | .completeListValue itemType fieldNodes info path result rec =>
      -- async-iterable sources are not modelled (no such JSValue)
      match result with
      | .arr items =>
        match getStreamValues fieldNodes with
        | .error e => (.error e, st)
        | .ok stream =>
          -- previousAsyncPayloadRecord starts as asyncPayloadRecord (line 984)
          interp ctx fuel (.listLoop itemType fieldNodes info path stream items 0 rec rec []) st
      | _ =>
        (.error { message := "Expected Iterable, but did not find one for field \"" ++
                    info.parentTypeName ++ "." ++ info.fieldName ++ "\"." }, st)
    | .listLoop itemType fieldNodes info path stream items index rec prev acc =>
      match items with
      | [] => (.ok (.arr acc.reverse), st)
      | item :: rest =>
        match stream with
        | some sv =>
          if sv.initialCount ≤ (index : ℚ) then
            -- source lines 994-1011: stream this and all later items
            let itemPath := addPath path (.idx index)
            let rs := executeStreamField itemPath item sv.label prev st
            interp ctx fuel
              (.listLoop itemType fieldNodes info path stream rest (index + 1) rec
                (some rs.1.id) acc) rs.2
          else
            match interp ctx fuel (.listItemInline itemType fieldNodes info path index item rec) st with
            | (.ok v, st') =>
              interp ctx fuel
                (.listLoop itemType fieldNodes info path stream rest (index + 1) rec prev
                  (v :: acc)) st'
            | (.error e, st') => (.error e, st')
        | none =>
          match interp ctx fuel (.listItemInline itemType fieldNodes info path index item rec) st with
          | (.ok v, st') =>
            interp ctx fuel
              (.listLoop itemType fieldNodes info path stream rest (index + 1) rec prev
                (v :: acc)) st'
          | (.error e, st') => (.error e, st')
    | .listItemInline itemType fieldNodes info path index item rec =>
      let itemPath := addPath path (.idx index)
      match interp ctx fuel (.completeValue itemType fieldNodes info itemPath item rec) st with
      | (.ok v, st') => (.ok v, st')
      | (.error rawError, st') =>
        -- source lines 1053-1056
        handleFieldErrorAt (locatedError rawError (pathToArray itemPath)) itemType rec st'
    | .executeField parentType source fieldNodes path rec =>
      match fieldNodes with
      | [] => (.ok .undefined, st) -- fieldNodes is never empty in the source
      | node :: _ =>
        match getFieldDef ctx.schema parentType node with
        | none => (.ok .undefined, st) -- source lines 572-574: return undefined
        | some fieldDef =>
          let returnType := fieldDef.type
          let resolveFn := fieldDef.resolve.getD ctx.fieldResolver
          let info := buildResolveInfo fieldDef parentType path
          match resolveFn source info with
          | .error rawError =>
            -- source lines 639-642
            handleFieldErrorAt (locatedError rawError (pathToArray path)) returnType rec st
          | .ok result =>
            match interp ctx fuel (.completeValue returnType fieldNodes info path result rec) st with
            | (.ok v, st') => (.ok v, st')
            | (.error rawError, st') =>
              -- source lines 630-637 (synchronous analogue)
              handleFieldErrorAt (locatedError rawError (pathToArray path)) returnType rec st'
    | .executeFieldsLoop parentType source path fields rec acc =>
      match fields with
      | [] => (.ok (.obj acc.reverse), st)
      | (rn, fieldNodes) :: rest =>
        let fieldPath := addPath path (.field rn)
        match interp ctx fuel (.executeField parentType source fieldNodes fieldPath rec) st with
        | (.ok .undefined, st') =>
          -- source line 537: undefined results are omitted from the map
          interp ctx fuel (.executeFieldsLoop parentType source path rest rec acc) st'
        | (.ok v, st') =>
          interp ctx fuel (.executeFieldsLoop parentType source path rest rec ((rn, v) :: acc)) st'
        | (.error e, st') => (.error e, st')
    | .executeFieldsSerial parentType source path fields acc =>
      match fields with
      | [] => (.ok (.obj acc.reverse), st)
      | (rn, fieldNodes) :: rest =>
        let fieldPath := addPath path (.field rn)
        match interp ctx fuel (.executeField parentType source fieldNodes fieldPath none) st with
        | (.ok .undefined, st') =>
          interp ctx fuel (.executeFieldsSerial parentType source path rest acc) st'
        | (.ok v, st') =>
          interp ctx fuel (.executeFieldsSerial parentType source path rest ((rn, v) :: acc)) st'
        | (.error e, st') => (.error e, st')

/-- `completeValue` as a named entry point. -/
def completeValue (ctx : ExecutionContext) (fuel : Nat) (returnType : GQLType)
    (fieldNodes : List FieldNode) (info : ResolveInfo) (path : Path) (result : JSValue)
    (rec : Option Nat) (st : ExecState) : Except Err JSValue × ExecState :=
  interp ctx fuel (.completeValue returnType fieldNodes info path result rec) st

/-- `completeListValue` as a named entry point. -/
def completeListValue (ctx : ExecutionContext) (fuel : Nat) (itemType : GQLType)
    (fieldNodes : List FieldNode) (info : ResolveInfo) (path : Path) (result : JSValue)
    (rec : Option Nat) (st : ExecState) : Except Err JSValue × ExecState :=
  interp ctx fuel (.completeListValue itemType fieldNodes info path result rec) st

/-- the list-completion loop as a named entry point. -/
def completeListLoop (ctx : ExecutionContext) (fuel : Nat) (itemType : GQLType)
    (fieldNodes : List FieldNode) (info : ResolveInfo) (path : Path)
    (stream : Option StreamValues) (items : List JSValue) (index : Nat) (rec : Option Nat)
    (prev : Option Nat) (acc : List JSValue) (st : ExecState) :
    Except Err JSValue × ExecState :=
  interp ctx fuel (.listLoop itemType fieldNodes info path stream items index rec prev acc) st

/-- `executeField` as a named entry point. -/
def executeField (ctx : ExecutionContext) (fuel : Nat) (parentType : ObjectTypeData)
    (source : JSValue) (fieldNodes : List FieldNode) (path : Path) (rec : Option Nat)
    (st : ExecState) : Except Err JSValue × ExecState :=
  interp ctx fuel (.executeField parentType source fieldNodes path rec) st

/-- the `executeFields` loop as a named entry point. -/
def executeFields (ctx : ExecutionContext) (fuel : Nat) (parentType : ObjectTypeData)
    (source : JSValue) (path : Path) (fields : List (String × List FieldNode))
    (rec : Option Nat) (st : ExecState) : Except Err JSValue × ExecState :=
  interp ctx fuel (.executeFieldsLoop parentType source path fields rec []) st

/-- `schema.getRootType(operation.operation)`: resolve the root type name for
the operation kind to its object type definition. -/
def Schema.getRootType (s : Schema) (op : OpType) : Option ObjectTypeData :=
  (match op with
   | .query => s.queryType
   | .mutation => s.mutationType
   | .subscription => s.subscriptionType).bind
    (fun n =>
      match s.getTypeDef n with
      | some (.objectT o) => some o
      | _ => none)

/-- Spelling of an operation kind inside error messages. -/
def OpType.asString : OpType → String
  | .query => "query"
  | .mutation => "mutation"
  | .subscription => "subscription"

/-- `executeOperation` (source lines 416-471): resolve the root type, collect
the root fields, and run them in parallel (query/subscription) or serially
(mutation).  With the modelled field collector the deferred-patch list is
always empty, so the `executeDeferredFragment` loop over root patches
(lines 458-468) is a no-op and is omitted. -/
def executeOperation (ctx : ExecutionContext) (fuel : Nat) :
    Except Err JSValue × ExecState :=
  let st : ExecState := {}
  match ctx.schema.getRootType ctx.operation.operation with
  | none =>
    (.error { message := "Schema is not configured to execute " ++
                ctx.operation.operation.asString ++ " operation." }, st)
  | some rootType =>
    let rootFields := collectFieldsModel ctx.operation.selectionSet
    match ctx.operation.operation with
    | .query =>
      interp ctx fuel (.executeFieldsLoop rootType ctx.rootValue [] rootFields none []) st
    | .mutation =>
      interp ctx fuel (.executeFieldsSerial rootType ctx.rootValue [] rootFields []) st
    | .subscription =>
      interp ctx fuel (.executeFieldsLoop rootType ctx.rootValue [] rootFields none []) st

/-- `ExecutionResult` (source lines 135-143): an absent key is `none`;
`data := some .null` is the JSON `data: null`. -/
structure ExecutionResult where
  data : Option JSValue := none
  errors : Option (List Err) := none
  hasNext : Option Bool := none

/-- `buildResponse` (source lines 297-302): the `errors` key is included
exactly when the list is non-empty; the `data` key is always present. -/
def buildResponse (data : JSValue) (errors : List Err) : ExecutionResult :=
  if errors.length = 0 then { data := some data }
  else { errors := some errors, data := some data }

/-- The definition scan of `buildExecutionContext` (source lines 350-374):
walk the document once, choosing the operation (erroring on a second unnamed
choice) and collecting fragment names. -/
def scanDefinitions : List Definition → Option String → Option OperationDef →
    List String → Except (List Err) (Option OperationDef × List String)
  | [], _, acc, frags => .ok (acc, frags)
  | .op d :: rest, opName, acc, frags =>
    (match opName with
     | none =>
       match acc with
       | some _ =>
         .error [{ message :=
           "Must provide operation name if query contains multiple operations." }]
       | none => scanDefinitions rest opName (some d) frags
     | some n =>
       if d.name = some n then scanDefinitions rest opName (some d) frags
       else scanDefinitions rest opName acc frags)
  | .frag name :: rest, opName, acc, frags => scanDefinitions rest opName acc (frags ++ [name])
  | .other :: rest, opName, acc, frags => scanDefinitions rest opName acc frags

/-- `buildExecutionContext` (source lines 335-411).  Variable coercion
(`getVariableValues`, values.ts, outside the sources) is modelled from the
spec as always succeeding with the raw variable map, so the only error paths
are the operation-selection ones. -/
def buildExecutionContext (args : ExecutionArgs) :
    Except (List Err) ExecutionContext :=
  match scanDefinitions args.document args.operationName none [] with
  | .error errs => .error errs
  | .ok (operation?, fragments) =>
    match operation? with
    | none =>
      match args.operationName with
      | some n =>
        .error [{ message := "Unknown operation named \"" ++ n ++ "\"." }]
      | none => .error [{ message := "Must provide an operation." }]
    | some operation =>
      .ok { schema := args.schema, fragments := fragments,
            rootValue := args.rootValue, operation := operation,
            variableValues := args.variableValues,
            fieldResolver := args.fieldResolver.getD defaultFieldResolver }

/-- The three shapes `execute` can return: a plain `ExecutionResult`, a promise
of one, or the subsequent-payload async generator (carried here as the initial
result plus the pending records).  The synchronous embedding never constructs
`futureResult`; it exists because the source's return type allows it. -/
inductive ExecuteOut where
  | result (r : ExecutionResult)
  | futureResult (r : ExecutionResult)
  | asyncGen (initial : ExecutionResult) (payloads : List AsyncPayloadRecord)

/-- The response visible in an `ExecuteOut` (for the async generator, the
initial result). -/
def responseOf : ExecuteOut → ExecutionResult
  | .result r => r
  | .futureResult r => r
  | .asyncGen i _ => i

/-- `execute` (source lines 212-275), synchronous phase: context-building
failures return `{ errors }` with no `data` key; a throw escaping the
operation is pushed onto the primary log and the response is built over null;
otherwise the response is built over the result map, and pending payload
records turn the return value into the subsequent-payload generator.
`assertValidExecutionArguments` (programmer errors raised to the caller) is
outside the modelled paths. -/
def execute (args : ExecutionArgs) (fuel : Nat) : ExecuteOut :=
  match buildExecutionContext args with
  | .error errs => .result { errors := some errs }
  | .ok ctx =>
    match executeOperation ctx fuel with
    | (.ok data, st) =>
      let initialResult := buildResponse data st.errors
      if st.payloads.length > 0 then .asyncGen initialResult st.payloads
      else .result initialResult
    | (.error e, st) =>
      .result (buildResponse .null (st.errors ++ [e]))

/-- `executeSync` (source lines 282-291): return the plain result, raise on a
promise or an async iterable. -/
def executeSync (args : ExecutionArgs) (fuel : Nat) : Except Err ExecutionResult :=
  match execute args fuel with
  | .result r => .ok r
  | .futureResult _ =>
    .error { message := "GraphQL execution failed to complete synchronously." }
  | .asyncGen _ _ =>
    .error { message := "GraphQL execution failed to complete synchronously." }

/-- `ExecutionPatchResult` as emitted by the yielder (source lines 1610-1622
and 1570-1575): `path` is absent only on the final `hasNext: false` payload;
`label` and `errors` keys appear only when set/non-empty (an empty `errors`
list stands for the absent key).  The record's resolved `data` is settled
asynchronously and is not modelled. -/
structure PatchResult where
  path : Option Path := none
  label : Option String := none
  errors : List Err := []
  hasNext : Bool
deriving DecidableEq, Repr

/-- The race of `yieldSubsequentPayloads` (source lines 1567-1630).  Which
pending record's data promise settles first is non-deterministic; it is
supplied by the oracle `choices` (indices into the pending list).  With no
pending records the race resolves to the final `hasNext: false` payload
(lines 1568-1576); otherwise the chosen record is spliced out and — if it was
marked `isCompletedIterator` — the race re-runs without emitting (lines
1604-1609); else the patch is emitted with `hasNext` true iff records remain
(lines 1610-1626).  The guards for a concurrently exhausted or consumed list
(lines 1588-1600) cannot fire with a single consumer and are not modelled.
`none` means no settlement was chosen (the race is still pending). -/
def race : List AsyncPayloadRecord → List Nat →
    Option (PatchResult × List AsyncPayloadRecord)
  | [], _ => some ({ hasNext := false }, [])
  | _ :: _, [] => none
  | p :: ps, c :: cs =>
    match (p :: ps)[c]? with
    | none => none
    | some r =>
      let rest := (p :: ps).eraseIdx c
      if r.isCompletedIterator then race rest cs
      else
        some ({ path := some (pathToArray (r.path.getD [])), label := r.label,
                errors := r.errors, hasNext := decide (0 < rest.length) }, rest)

/-- The local state of the generator returned by `yieldSubsequentPayloads`
(source lines 1560-1672). -/
structure YielderState where
  payloads : List AsyncPayloadRecord := []
  hasReturnedInitialResult : Bool := false
  isDone : Bool := false

/-- One step of the yielder's async protocol. -/
inductive YieldStep where
  | initial (r : ExecutionResult)
  | patch (p : PatchResult)
  | done

/-- The yielder's `next()` (source lines 1636-1650): first emit the initial
result with `hasNext: true`; afterwards report completion when no payloads are
pending or the yielder is done; otherwise run the race. -/
def yielderNext (initialResult : ExecutionResult) (st : YielderState)
    (choices : List Nat) : Option (YieldStep × YielderState) :=
  if !st.hasReturnedInitialResult then
    some (.initial { initialResult with hasNext := some true },
          { st with hasReturnedInitialResult := true })
  else if st.payloads.length = 0 || st.isDone then
    some (.done, st)
  else
    (race st.payloads choices).map (fun pr => (.patch pr.1, { st with payloads := pr.2 }))

/-- The yielder's `return()` (source lines 1651-1659): ask each pending
record's source iterator (when it has one) to return — the emitted list is the
sequence of iterator ids so asked, one entry per such record — and mark the
yielder done. -/
def yielderReturn (st : YielderState) : List Nat × YielderState :=
  (st.payloads.filterMap (fun r => r.iterator), { st with isDone := true })

/-- One payload record created by `executeStreamIterator`'s `next` (source
lines 1487-1493): every record of the same streamed list holds the SAME
source iterator, a path ending in the item index, and is sequenced after the
stream's parent context. -/
def streamIteratorRecord (label : Option String) (path : Option Path) (index : Nat)
    (iter : Nat) (parentCtx : Option Nat) (id : Nat) : AsyncPayloadRecord :=
  { id := id, label := label, path := some (addPath (path.getD []) (.idx index)),
    iterator := some iter, parent := parentCtx }

/-- The payload records that the stream branch of the list loop appends for
the items past `initialCount`: one record per item, whose path ends in the
item's index and whose data promise is sequenced after the previous record's
(the first after `prev`); ids are consecutive from `nid`.  Mirrors
`executeStreamField` as invoked from `completeListValue`. -/
def expectedStreamRecs (basePath : Path) (label : Option String) :
    List JSValue → Nat → Option Nat → Nat → List AsyncPayloadRecord
  | [], _, _, _ => []
  | item :: rest, index, prev, nid =>
    { id := nid, label := label, path := some (addPath basePath (.idx index)),
      deferredItem := some item, parent := prev } ::
      expectedStreamRecs basePath label rest (index + 1) (some nid) (nid + 1)

/-- Is a document definition an operation definition? -/
def isOpDef : Definition → Bool
  | .op _ => true
  | _ => false

/-! Concrete instances used by end-to-end theorems and witnesses. -/

/-- The field node `x` of scenario S3. -/
def xNode : FieldNode := FieldNode.mk "x" none [] []

/-- The field `x: Int!` of scenario S3, whose resolver returns null. -/
def s3FieldX : FieldDef :=
  { name := "x", type := .nonNull (.named "Int"), resolve := some (fun _ _ => .ok .null) }

/-- The object type `Q` of scenario S3. -/
def s3TypeQ : ObjectTypeData := { name := "Q", fields := [s3FieldX] }

/-- Scenario S3 schema: `type Q { x: Int! }`. -/
def s3Schema : Schema :=
  { queryType := some "Q",
    types := [.objectT s3TypeQ, .scalarT "Int" (fun v => v)] }

/-- The S3 operation `{ x }`. -/
def s3Op : OperationDef := { selectionSet := [xNode] }

/-- The S3 execution arguments. -/
def s3Args : ExecutionArgs := { schema := s3Schema, document := [.op s3Op] }

/-- The S3 execution context. -/
def s3Ctx : ExecutionContext :=
  { schema := s3Schema, operation := s3Op, fieldResolver := defaultFieldResolver }

/-- The resolve info of the S3 field `Q.x`. -/
def xInfo : ResolveInfo :=
  { fieldName := "x", parentTypeName := "Q", path := [.field "x"] }

/-- A field node with no directives (no `@stream`). -/
def plainListNode : FieldNode := FieldNode.mk "list" none [] []

/-- The rational 3/2, given in normal form so that it evaluates in the
kernel. -/
def threeHalves : ℚ := ⟨3, 2, by norm_num, by norm_num [Nat.Coprime]⟩

/-- A field node with `@stream(initialCount: 1.5)`: the coerced argument is a
non-integer number. -/
def streamHalfNode : FieldNode :=
  FieldNode.mk "list" none [{ name := "stream", args := [("initialCount", .num threeHalves)] }] []

/-- A field node with `@stream(initialCount: 2, label: "L")`. -/
def streamOkNode : FieldNode :=
  FieldNode.mk "list" none
    [{ name := "stream", args := [("initialCount", .num 2), ("label", .str "L")] }] []

/-- A field node with `@stream(if: false, initialCount: 2)`. -/
def streamIfFalseNode : FieldNode :=
  FieldNode.mk "list" none
    [{ name := "stream", args := [("if", .bool false), ("initialCount", .num 2)] }] []

/-- A field node with `@stream(initialCount: 1)` (used for the streamed-list
record theorems). -/
def streamOneNode : FieldNode :=
  FieldNode.mk "list" none [{ name := "stream", args := [("initialCount", .num 1)] }] []

/-- A pending payload record marked `isCompletedIterator`. -/
def completedIterRec : AsyncPayloadRecord :=
  { id := 7, iterator := some 3, isCompletedIterator := true }

/-- An ordinary pending payload record. -/
def plainRec : AsyncPayloadRecord := { id := 8 }

/-- A yielder state holding two stream-iterator records that share the same
source iterator (id 0), as `executeStreamIterator` produces for consecutive
items of one streamed list. -/
def sharedIterState : YielderState :=
  { payloads := [streamIteratorRecord none none 0 0 none 0,
                 streamIteratorRecord none none 1 0 none 1] }

/-- The shared-iterator state after the initial result has been emitted. -/
def sharedIterStateStarted : YielderState :=
  { sharedIterState with hasReturnedInitialResult := true }

/-- A field node whose name resolves to no field definition on `Q`. -/
def nopeNode : FieldNode := FieldNode.mk "nope" none [] []

/-! ## Claim theorems -/

/-- Claim C2: for every located field error handled by the engine, a
non-nullable field return type re-raises the error (leaving the active error
log unchanged at this point), and a nullable one appends the error to the
active error log — exactly once, at the end — and resolves the field to
null. -/
theorem c2_handle_field_error (error : Err) (returnType : GQLType) (errors : List Err) :
    (isNonNullType returnType = true →
      handleFieldError error returnType errors = (.error error, errors)) ∧
    (isNonNullType returnType = false →
      handleFieldError error returnType errors = (.ok .null, errors ++ [error])) := by
  constructor <;> intro h <;> simp [handleFieldError, h]

/-- Witness for C2 at a concrete error with a non-null and a nullable type. -/
theorem c2_handle_field_error_witness :
    handleFieldError { message := "boom" } (.nonNull (.named "Int")) [] =
      (.error { message := "boom" }, []) ∧
    handleFieldError { message := "boom" } (.named "Int") [] =
      (.ok .null, [{ message := "boom" }]) :=
  ⟨(c2_handle_field_error { message := "boom" } (.nonNull (.named "Int")) []).1 rfl,
   (c2_handle_field_error { message := "boom" } (.named "Int") []).2 rfl⟩

/-- Claim C9: `executeSync` returns `execute`'s result when it is a plain
`ExecutionResult`, and raises "GraphQL execution failed to complete
synchronously." whenever `execute` returns a future or an async sequence. -/
theorem c9_execute_sync (args : ExecutionArgs) (fuel : Nat) :
    (∀ r, execute args fuel = .result r → executeSync args fuel = .ok r) ∧
    (∀ r, execute args fuel = .futureResult r →
      executeSync args fuel =
        .error { message := "GraphQL execution failed to complete synchronously." }) ∧
    (∀ i ps, execute args fuel = .asyncGen i ps →
      executeSync args fuel =
        .error { message := "GraphQL execution failed to complete synchronously." }) := by
  refine ⟨?_, ?_, ?_⟩ <;> intros <;> simp_all [executeSync]

/-- Witness for C9 at the S3 arguments (plain synchronous result). -/
theorem c9_execute_sync_witness :
    executeSync s3Args 10 = .ok
      { data := some .null,
        errors := some [{ message := "Cannot return null for non-nullable field Q.x.",
                          path := some [.field "x"] }] } :=
  (c9_execute_sync s3Args 10).1 _ rfl

/-- Claim C3: the built response carries the `errors` key exactly when the
error list is non-empty and always carries the `data` key; `execute` puts a
`data` key in the response whenever context building succeeded (even when the
value is null from bubbling), while a context-building failure yields a
response with only `errors` and no `data` key. -/
theorem c3_response_shape (args : ExecutionArgs) (fuel : Nat) :
    (∀ errs, buildExecutionContext args = .error errs →
      execute args fuel = .result { data := none, errors := some errs }) ∧
    (∀ d errs, ((buildResponse d errs).errors = none ↔ errs = []) ∧
      (buildResponse d errs).data = some d) ∧
    (∀ ctx, buildExecutionContext args = .ok ctx →
      ((responseOf (execute args fuel)).data).isSome = true) := by
  refine ⟨?_, ?_, ?_⟩
  · intro errs h
    simp [execute, h]
  · intro d errs
    constructor
    · simp only [buildResponse]
      split <;> simp_all [List.length_eq_zero]
    · simp only [buildResponse]
      split <;> simp
  · intro ctx h
    rcases hop : executeOperation ctx fuel with ⟨res, st⟩
    cases res with
    | ok d =>
      simp only [execute, h, hop]
      split <;> (simp only [responseOf, buildResponse]; split <;> simp)
    | error e =>
      simp only [execute, h, hop, responseOf, buildResponse]
      split <;> simp

/-- Witness for C3: a context-building failure (empty document) yields errors
only; `buildResponse` over null carries the data key; the S3 execution's
response has a data key. -/
theorem c3_response_shape_witness :
    execute { schema := s3Schema, document := [] } 5 =
      .result { data := none, errors := some [{ message := "Must provide an operation." }] } ∧
    (buildResponse .null []).data = some JSValue.null ∧
    ((responseOf (execute s3Args 10)).data).isSome = true :=
  ⟨(c3_response_shape { schema := s3Schema, document := [] } 5).1 _ rfl,
   ((c3_response_shape s3Args 10).2.1 .null []).2,
   (c3_response_shape s3Args 10).2.2 s3Ctx rfl⟩

/-- Claim C5: in the subsequent-payload race, a chosen record marked
`isCompletedIterator` is removed without emitting a patch and the race is
re-run on the remainder; and every emitted patch has `hasNext` true exactly
when at least one pending record remains after the chosen record's removal. -/
theorem c5_race_payloads :
    (∀ (ps : List AsyncPayloadRecord) (c : Nat) (cs : List Nat) r,
      ps[c]? = some r → r.isCompletedIterator = true →
      race ps (c :: cs) = race (ps.eraseIdx c) cs) ∧
    (∀ (ps : List AsyncPayloadRecord) (cs : List Nat) p rest,
      race ps cs = some (p, rest) → (p.hasNext = true ↔ rest ≠ [])) := by
  constructor
  · intro ps c cs r hget hci
    cases ps with
    | nil => simp at hget
    | cons a as => simp [race, hget, hci]
  · intro ps cs
    induction cs generalizing ps with
    | nil =>
      intro p rest h
      cases ps with
      | nil =>
        simp only [race, Option.some.injEq, Prod.mk.injEq] at h
        rcases h with ⟨h1, h2⟩
        subst h1; subst h2
        simp
      | cons a as => simp [race] at h
    | cons c cs ih =>
      intro p rest h
      cases ps with
      | nil =>
        simp only [race, Option.some.injEq, Prod.mk.injEq] at h
        rcases h with ⟨h1, h2⟩
        subst h1; subst h2
        simp
      | cons a as =>
        simp only [race] at h
        split at h
        · exact absurd h (by simp)
        · split at h
          · exact ih _ p rest h
          · simp only [Option.some.injEq, Prod.mk.injEq] at h
            rcases h with ⟨h1, h2⟩
            subst h1; subst h2
            simp [List.length_pos]

/-- Witness for C5: a concrete completed-iterator record is dropped and the
race re-runs; a concrete emitted patch over a single pending record has
`hasNext = false` with nothing remaining. -/
theorem c5_race_payloads_witness :
    race [completedIterRec, plainRec] [0, 0] = race [plainRec] [0] ∧
    (({ path := some [], hasNext := false } : PatchResult).hasNext = true ↔
      ([] : List AsyncPayloadRecord) ≠ []) :=
  ⟨c5_race_payloads.1 [completedIterRec, plainRec] 0 [0] completedIterRec rfl rfl,
   c5_race_payloads.2 [plainRec] [0] { path := some [], hasNext := false } [] rfl⟩

/-- Count of an id in the iterator ids collected by `filterMap` equals the
count of pending records holding that iterator. -/
theorem count_filterMap_iterator (l : List AsyncPayloadRecord) (i : Nat) :
    (l.filterMap (fun r => r.iterator)).count i =
      l.countP (fun r => decide (r.iterator = some i)) := by
  induction l with
  | nil => simp
  | cons r rest ih =>
    rcases hr : r.iterator with _ | j
    · simp [List.filterMap_cons, hr, List.countP_cons, ih]
    · simp only [List.filterMap_cons, hr, List.countP_cons, ih, List.count_cons]
      by_cases hj : j = i <;> simp [hj]

/-- Claim C7 counterexample: with two pending records of the same streamed
list — both holding source iterator 0, exactly as `executeStreamIterator`
creates them for consecutive items — `return()` asks iterator 0 to return
twice, not exactly once. -/
theorem c7_return_counterexample :
    (yielderReturn sharedIterState).1 = [0, 0] ∧
    ¬ (yielderReturn sharedIterState).1.count 0 = 1 := by
  constructor
  · rfl
  · decide

/-- Claim C7 (amended): after `return()` on the yielder, each source async
iterator is asked to return once per pending record that holds it (so exactly
once only when exactly one pending record holds it), and the yielder is marked
done, so that — once the initial result has been emitted — subsequent `next()`
calls report completion. -/
theorem c7_yielder_return_amended (st : YielderState) (i : Nat) :
    (yielderReturn st).1.count i =
      st.payloads.countP (fun r => decide (r.iterator = some i)) ∧
    (yielderReturn st).2.isDone = true ∧
    (∀ init choices, st.hasReturnedInitialResult = true →
      yielderNext init (yielderReturn st).2 choices = some (.done, (yielderReturn st).2)) := by
  refine ⟨count_filterMap_iterator st.payloads i, rfl, ?_⟩
  intro init choices h
  simp [yielderNext, yielderReturn, h]

/-- Witness for C7 (amended) at the shared-iterator state. -/
theorem c7_yielder_return_amended_witness :
    (yielderReturn sharedIterStateStarted).1.count 0 =
      sharedIterStateStarted.payloads.countP (fun r => decide (r.iterator = some 0)) ∧
    yielderNext {} (yielderReturn sharedIterStateStarted).2 [] =
      some (.done, (yielderReturn sharedIterStateStarted).2) :=
  ⟨(c7_yielder_return_amended sharedIterStateStarted 0).1,
   (c7_yielder_return_amended sharedIterStateStarted 0).2.2 {} [] rfl⟩

/-- With no active stream, the list loop completes every item into the result:
the completed list is as long as the input (plus the already-accumulated
prefix). -/
theorem listLoop_none_length (ctx : ExecutionContext) (itemType : GQLType)
    (fieldNodes : List FieldNode) (info : ResolveInfo) (path : Path) :
    ∀ (items : List JSValue) (fuel index : Nat) (rec prev : Option Nat)
      (acc vs : List JSValue) (st st' : ExecState),
      interp ctx fuel (.listLoop itemType fieldNodes info path none items index rec prev acc) st =
        (.ok (.arr vs), st') →
      vs.length = acc.length + items.length := by
  intro items
  induction items with
  | nil =>
    intro fuel index rec prev acc vs st st' h
    cases fuel with
    | zero => simp [interp] at h
    | succ f =>
      simp only [interp, Prod.mk.injEq, Except.ok.injEq, JSValue.arr.injEq] at h
      rw [← h.1]
      simp
  | cons item rest ih =>
    intro fuel index rec prev acc vs st st' h
    cases fuel with
    | zero => simp [interp] at h
    | succ f =>
      simp only [interp] at h
      rcases hstep : interp ctx f (.listItemInline itemType fieldNodes info path index item rec) st
        with ⟨res, st1⟩
      rw [hstep] at h
      cases res with
      | ok v =>
        have := ih f (index + 1) rec prev (v :: acc) vs st1 st' h
        simp only [List.length_cons] at this ⊢
        omega
      | error e => simp at h

/-- Claim C6 counterexample: `getStreamValues` accepts the non-integer
`initialCount` 3/2 (a value of denominator 2) instead of rejecting it: the
code only checks `typeof initialCount === 'number'` and `initialCount >= 0`,
not integrality. -/
theorem c6_counterexample :
    getStreamValues [streamHalfNode] = .ok (some { initialCount := threeHalves }) ∧
    ¬ ∃ n : ℤ, threeHalves = (n : ℚ) := by
  constructor
  · rfl
  · rintro ⟨n, hn⟩
    have hden : threeHalves.den = 1 := by rw [hn]; exact Rat.den_intCast n
    exact absurd hden (by decide)

/-- Claim C6 (amended): when the `@stream` directive is present and not
disabled, the engine validates that `initialCount` is a number and is
non-negative — rejecting (by a thrown invariant) any non-number and any
negative number, while a non-integer number passes the check (integrality is
guaranteed upstream by Int argument coercion, outside these sources); when the
directive is absent or carries `if: false` there is no streaming, and the list
loop without a stream completes every item into the result list. -/
theorem c6_stream_validation :
    (∀ node rest, getDirectiveValues "stream" node = none →
      getStreamValues (node :: rest) = .ok none) ∧
    (∀ node rest args, getDirectiveValues "stream" node = some args →
      strictEqFalse (argLookup args "if") = true →
      getStreamValues (node :: rest) = .ok none) ∧
    (∀ node rest args, getDirectiveValues "stream" node = some args →
      strictEqFalse (argLookup args "if") = false →
      asNumber (argLookup args "initialCount") = none →
      getStreamValues (node :: rest) = .error { message := "initialCount must be a number" }) ∧
    (∀ node rest args q, getDirectiveValues "stream" node = some args →
      strictEqFalse (argLookup args "if") = false →
      asNumber (argLookup args "initialCount") = some q → q < 0 →
      getStreamValues (node :: rest) =
        .error { message := "initialCount must be a positive integer" }) ∧
    (∀ node rest args q, getDirectiveValues "stream" node = some args →
      strictEqFalse (argLookup args "if") = false →
      asNumber (argLookup args "initialCount") = some q → 0 ≤ q →
      getStreamValues (node :: rest) =
        .ok (some { initialCount := q, label := streamLabel args })) ∧
    (∀ ctx itemType fieldNodes info path items fuel index rec prev acc vs st st',
      completeListLoop ctx fuel itemType fieldNodes info path none items index rec prev acc st =
        (.ok (.arr vs), st') →
      vs.length = acc.length + items.length) := by
  refine ⟨?_, ?_, ?_, ?_, ?_, ?_⟩
  · intro node rest h
    simp [getStreamValues, h]
  · intro node rest args h hif
    simp [getStreamValues, h, hif]
  · intro node rest args h hif hn
    simp [getStreamValues, h, hif, hn]
  · intro node rest args q h hif hn hq
    simp [getStreamValues, h, hif, hn, hq]
  · intro node rest args q h hif hn hq
    simp [getStreamValues, h, hif, hn, not_lt.mpr hq]
  · intro ctx itemType fieldNodes info path items fuel index rec prev acc vs st st' h
    exact listLoop_none_length ctx itemType fieldNodes info path items fuel index rec prev
      acc vs st st' h

/-- Witness for C6 (amended): a directive-free node streams nothing; a
well-formed `@stream(initialCount: 2, label: "L")` validates. -/
theorem c6_stream_validation_witness :
    getStreamValues [plainListNode] = .ok none ∧
    getStreamValues [streamOkNode] = .ok (some { initialCount := 2, label := some "L" }) :=
  ⟨c6_stream_validation.1 plainListNode [] rfl,
   c6_stream_validation.2.2.2.2.1 streamOkNode []
     [("initialCount", .num 2), ("label", .str "L")] 2 rfl rfl rfl (by norm_num)⟩

/-- With the operation already chosen and at least one further operation
definition in the remaining document, the unnamed scan fails with the
multiple-operations error. -/
theorem scan_second_op :
    ∀ (defs : List Definition) (acc : Option OperationDef) (frags : List String),
      acc.isSome = true → 1 ≤ defs.countP isOpDef →
      scanDefinitions defs none acc frags =
        .error [{ message :=
          "Must provide operation name if query contains multiple operations." }] := by
  intro defs
  induction defs with
  | nil =>
    intro acc frags hs hc
    simp at hc
  | cons d rest ih =>
    intro acc frags hs hc
    cases d with
    | op o =>
      rcases acc with _ | a
      · simp at hs
      · simp [scanDefinitions]
    | frag n =>
      simp only [scanDefinitions]
      exact ih acc _ hs (by simpa [List.countP_cons, isOpDef] using hc)
    | other =>
      simp only [scanDefinitions]
      exact ih acc _ hs (by simpa [List.countP_cons, isOpDef] using hc)

/-- A document with at least two operation definitions and no operation name
fails the scan with the multiple-operations error. -/
theorem scan_multi_op :
    ∀ (defs : List Definition) (frags : List String),
      2 ≤ defs.countP isOpDef →
      scanDefinitions defs none none frags =
        .error [{ message :=
          "Must provide operation name if query contains multiple operations." }] := by
  intro defs
  induction defs with
  | nil =>
    intro frags hc
    simp at hc
  | cons d rest ih =>
    intro frags hc
    cases d with
    | op o =>
      simp only [scanDefinitions]
      refine scan_second_op rest (some o) frags rfl ?_
      have hc2 : 2 ≤ rest.countP isOpDef + 1 := by
        simpa [List.countP_cons, isOpDef] using hc
      omega
    | frag n =>
      simp only [scanDefinitions]
      exact ih _ (by simpa [List.countP_cons, isOpDef] using hc)
    | other =>
      simp only [scanDefinitions]
      exact ih _ (by simpa [List.countP_cons, isOpDef] using hc)

/-- A named scan over a document in which no operation bears the requested
name leaves the accumulator untouched. -/
theorem scan_named_no_match :
    ∀ (defs : List Definition) (n : String) (acc : Option OperationDef)
      (frags : List String),
      (∀ d, Definition.op d ∈ defs → d.name ≠ some n) →
      ∃ fr, scanDefinitions defs (some n) acc frags = .ok (acc, fr) := by
  intro defs
  induction defs with
  | nil =>
    intro n acc frags _
    exact ⟨frags, rfl⟩
  | cons d rest ih =>
    intro n acc frags h
    cases d with
    | op o =>
      have hne : ¬ (o.name = some n) := h o (List.mem_cons_self _ _)
      simp only [scanDefinitions, if_neg hne]
      exact ih n acc frags (fun d hd => h d (List.mem_cons_of_mem _ hd))
    | frag m =>
      simp only [scanDefinitions]
      exact ih n acc _ (fun d hd => h d (List.mem_cons_of_mem _ hd))
    | other =>
      simp only [scanDefinitions]
      exact ih n acc frags (fun d hd => h d (List.mem_cons_of_mem _ hd))

/-- An unnamed scan over a document without operation definitions leaves the
accumulator untouched. -/
theorem scan_no_ops :
    ∀ (defs : List Definition) (acc : Option OperationDef) (frags : List String),
      defs.countP isOpDef = 0 →
      ∃ fr, scanDefinitions defs none acc frags = .ok (acc, fr) := by
  intro defs
  induction defs with
  | nil =>
    intro acc frags _
    exact ⟨frags, rfl⟩
  | cons d rest ih =>
    intro acc frags hc
    cases d with
    | op o =>
      simp [List.countP_cons, isOpDef] at hc
    | frag m =>
      simp only [scanDefinitions]
      exact ih acc _ (by simpa [List.countP_cons, isOpDef] using hc)
    | other =>
      simp only [scanDefinitions]
      exact ih acc frags (by simpa [List.countP_cons, isOpDef] using hc)

/-- Claim C8: operation-selection failures are returned as an errors-only
response (no `data` key, nothing raised, no resolver run): multiple operations
without an operation name, an operation name matching no operation, and no
operation at all, each with its exact message. -/
theorem c8_operation_selection (args : ExecutionArgs) (fuel : Nat) :
    (args.operationName = none → 2 ≤ args.document.countP isOpDef →
      execute args fuel = .result { errors := some [{ message :=
        "Must provide operation name if query contains multiple operations." }] }) ∧
    (∀ n, args.operationName = some n →
      (∀ d, Definition.op d ∈ args.document → d.name ≠ some n) →
      execute args fuel = .result { errors := some [{ message :=
        "Unknown operation named \"" ++ n ++ "\"." }] }) ∧
    (args.operationName = none → args.document.countP isOpDef = 0 →
      execute args fuel = .result { errors := some [{ message :=
        "Must provide an operation." }] }) := by
  refine ⟨?_, ?_, ?_⟩
  · intro h1 h2
    have hs := scan_multi_op args.document [] h2
    simp [execute, buildExecutionContext, h1, hs]
  · intro n h1 h2
    obtain ⟨fr, hs⟩ := scan_named_no_match args.document n none [] h2
    simp [execute, buildExecutionContext, h1, hs]
  · intro h1 h2
    obtain ⟨fr, hs⟩ := scan_no_ops args.document none [] h2
    simp [execute, buildExecutionContext, h1, hs]

/-- A document with two anonymous operations. -/
def multiOpArgs : ExecutionArgs := { schema := s3Schema, document := [.op {}, .op {}] }

/-- A document whose only operation is named `A`, queried with name `B`. -/
def unknownOpArgs : ExecutionArgs :=
  { schema := s3Schema, document := [.op { name := some "A" }], operationName := some "B" }

/-- A document with no operation definition. -/
def emptyDocArgs : ExecutionArgs := { schema := s3Schema, document := [] }

/-- Witness for C8 at the three concrete documents. -/
theorem c8_operation_selection_witness :
    execute multiOpArgs 3 = .result { errors := some [{ message :=
      "Must provide operation name if query contains multiple operations." }] } ∧
    execute unknownOpArgs 3 = .result { errors := some [{ message :=
      "Unknown operation named \"B\"." }] } ∧
    execute emptyDocArgs 3 = .result { errors := some [{ message :=
      "Must provide an operation." }] } :=
  ⟨(c8_operation_selection multiOpArgs 3).1 rfl (by decide),
   (c8_operation_selection unknownOpArgs 3).2.1 "B" rfl (by
      intro d hd
      have h : Definition.op d = .op { name := some "A" } := List.mem_singleton.mp hd
      injection h with h2
      subst h2
      simp),
   (c8_operation_selection emptyDocArgs 3).2.2 rfl rfl⟩

/-- Skipping lemma: a grouped entry whose field has no definition contributes
nothing — the field-loop run over the document continues on the remaining
entries with the same accumulator and unchanged state. -/
theorem fieldsLoop_skip (ctx : ExecutionContext) (fuel : Nat)
    (parentType : ObjectTypeData) (source : JSValue) (path : Path) (rn : String)
    (node : FieldNode) (ns : List FieldNode) (rest : List (String × List FieldNode))
    (rec : Option Nat) (acc : List (String × JSValue)) (st : ExecState)
    (h : getFieldDef ctx.schema parentType node = none) :
    interp ctx (fuel + 2)
        (.executeFieldsLoop parentType source path ((rn, node :: ns) :: rest) rec acc) st =
      interp ctx (fuel + 1) (.executeFieldsLoop parentType source path rest rec acc) st := by
  conv =>
    lhs
    rw [interp]
  simp [interp, h]

/-- Every key of the map produced by the field loop comes from the grouped
field set or the accumulator. -/
theorem fieldsLoop_keys (ctx : ExecutionContext) (parentType : ObjectTypeData)
    (source : JSValue) (path : Path) :
    ∀ (fuel : Nat) (fields : List (String × List FieldNode)) (rec : Option Nat)
      (acc : List (String × JSValue)) (st st' : ExecState) (m : List (String × JSValue)),
      interp ctx fuel (.executeFieldsLoop parentType source path fields rec acc) st =
        (.ok (.obj m), st') →
      ∀ k, k ∈ m.map Prod.fst → k ∈ fields.map Prod.fst ∨ k ∈ acc.map Prod.fst := by
  intro fuel
  induction fuel with
  | zero =>
    intro fields rec acc st st' m h
    simp [interp] at h
  | succ f ih =>
    intro fields rec acc st st' m h k hk
    cases fields with
    | nil =>
      simp only [interp, Prod.mk.injEq, Except.ok.injEq, JSValue.obj.injEq] at h
      right
      rw [← h.1] at hk
      simpa using hk
    | cons entry rest =>
      rcases entry with ⟨rn, nodes⟩
      simp only [interp] at h
      rcases hstep : interp ctx f
          (.executeField parentType source nodes (addPath path (.field rn)) rec) st
        with ⟨res, st1⟩
      rw [hstep] at h
      cases res with
      | error e => simp at h
      | ok v =>
        cases v
        case undefined =>
          rcases ih rest rec acc st1 st' m h k hk with h1 | h1
          · exact Or.inl (List.mem_cons_of_mem _ h1)
          · exact Or.inr h1
        all_goals (
          rcases ih rest rec (_ :: acc) st1 st' m h k hk with h1 | h1
          · exact Or.inl (List.mem_cons_of_mem _ h1)
          · simp only [List.map_cons, List.mem_cons] at h1
            rcases h1 with h1 | h1
            · exact Or.inl (by simp [h1])
            · exact Or.inr h1)

/-- Claim C10: a grouped field whose name resolves to no field definition on
the parent type (and is none of the reserved introspection fields — those are
handled inside `getFieldDef`) makes `executeField` return undefined with the
state untouched (no error logged, no payload created); the field loop then
continues over the siblings with the same accumulator and state, and the
response name appears nowhere in the produced result map when no sibling or
accumulated entry shares it. -/
theorem c10_unknown_field_omitted :
    (∀ ctx fuel parentType source node ns path rec st,
      getFieldDef ctx.schema parentType node = none →
      executeField ctx (fuel + 1) parentType source (node :: ns) path rec st =
        (.ok .undefined, st)) ∧
    (∀ ctx fuel parentType source path rn node ns rest rec acc st,
      getFieldDef ctx.schema parentType node = none →
      interp ctx (fuel + 2)
          (.executeFieldsLoop parentType source path ((rn, node :: ns) :: rest) rec acc) st =
        interp ctx (fuel + 1) (.executeFieldsLoop parentType source path rest rec acc) st) ∧
    (∀ ctx fuel parentType source path rn node ns rest rec acc st st' m,
      getFieldDef ctx.schema parentType node = none →
      interp ctx (fuel + 2)
          (.executeFieldsLoop parentType source path ((rn, node :: ns) :: rest) rec acc) st =
        (.ok (.obj m), st') →
      ¬ rn ∈ rest.map Prod.fst → ¬ rn ∈ acc.map Prod.fst → ¬ rn ∈ m.map Prod.fst) := by
  refine ⟨?_, ?_, ?_⟩
  · intro ctx fuel parentType source node ns path rec st h
    simp [executeField, interp, h]
  · intro ctx fuel parentType source path rn node ns rest rec acc st h
    exact fieldsLoop_skip ctx fuel parentType source path rn node ns rest rec acc st h
  · intro ctx fuel parentType source path rn node ns rest rec acc st st' m h hrun hr ha hm
    rw [fieldsLoop_skip ctx fuel parentType source path rn node ns rest rec acc st h] at hrun
    rcases fieldsLoop_keys ctx parentType source path (fuel + 1) rest rec acc st st' m hrun
        rn hm with h1 | h1
    · exact hr h1
    · exact ha h1

/-- Witness for C10: the unknown field `nope` on `Q` resolves to undefined and
is omitted from an (empty) result map. -/
theorem c10_unknown_field_omitted_witness :
    executeField s3Ctx 3 s3TypeQ .undefined [nopeNode] [.field "nope"] none {} =
      (.ok .undefined, {}) ∧
    ¬ "nope" ∈ ([] : List (String × JSValue)).map Prod.fst :=
  ⟨c10_unknown_field_omitted.1 s3Ctx 2 s3TypeQ .undefined nopeNode [] [.field "nope"] none {} rfl,
   c10_unknown_field_omitted.2.2 s3Ctx 1 s3TypeQ .undefined [] "nope" nopeNode [] [] none []
     {} {} [] rfl rfl (by simp) (by simp)⟩

/-- Completing an Error-valued result always throws (whatever the return
type), leaving the state untouched. -/
theorem completeValue_jsError (ctx : ExecutionContext) (fuel : Nat) (t : GQLType)
    (fieldNodes : List FieldNode) (info : ResolveInfo) (path : Path) (m : String)
    (rec : Option Nat) (st : ExecState) :
    ∃ e, interp ctx fuel (.completeValue t fieldNodes info path (.jsError m) rec) st =
      (.error e, st) := by
  cases fuel with
  | zero => exact ⟨outOfFuel, rfl⟩
  | succ f => exact ⟨{ message := m }, rfl⟩

/-- Claim C1: when completing a non-null field whose inner completion yields
null, `completeValue` raises an error with message "Cannot return null for
non-nullable field ParentType.fieldName." instead of returning null; and for
schema `type Q { x: Int! }` with a resolver returning null, `execute` returns
`data: null` with exactly that error located at path `["x"]`. -/
theorem c1_non_null_completion :
    (∀ ctx fuel t fieldNodes info path v rec st st',
      completeValue ctx fuel t fieldNodes info path v rec st = (.ok .null, st') →
      completeValue ctx (fuel + 1) (.nonNull t) fieldNodes info path v rec st =
        (.error { message := "Cannot return null for non-nullable field " ++
                    info.parentTypeName ++ "." ++ info.fieldName ++ "." }, st')) ∧
    execute s3Args 10 = .result
      { data := some .null,
        errors := some [{ message := "Cannot return null for non-nullable field Q.x.",
                          path := some [.field "x"] }] } := by
  constructor
  · intro ctx fuel t fieldNodes info path v rec st st' h
    simp only [completeValue] at h ⊢
    cases v
    case jsError m =>
      obtain ⟨e, he⟩ := completeValue_jsError ctx fuel t fieldNodes info path m rec st
      rw [he] at h
      simp at h
    all_goals (
      simp only [interp]
      rw [h])
  · rfl

/-- Witness for C1: the inner completion of `Int` at null is null, so the
non-null completion of `Int!` raises the message for `Q.x`. -/
theorem c1_non_null_completion_witness :
    completeValue s3Ctx 2 (.nonNull (.named "Int")) [xNode] xInfo [.field "x"] .null none {} =
      (.error { message := "Cannot return null for non-nullable field Q.x." }, {}) :=
  c1_non_null_completion.1 s3Ctx 1 (.named "Int") [xNode] xInfo [.field "x"] .null none {} {} rfl

/-- Characterization of the records the stream branch appends: the record at
position `j` has a path ending in the item index `i + j`, consecutive id
`n + j`, and its data promise is sequenced after the previous record's (after
`p` for the first). -/
theorem expectedStreamRecs_get (basePath : Path) (label : Option String) :
    ∀ (xs : List JSValue) (i : Nat) (p : Option Nat) (n j : Nat) (r : AsyncPayloadRecord),
      (expectedStreamRecs basePath label xs i p n)[j]? = some r →
      r.path = some (addPath basePath (.idx (i + j))) ∧
      r.id = n + j ∧
      r.parent = (if j = 0 then p else some (n + j - 1)) := by
  intro xs
  induction xs with
  | nil =>
    intro i p n j r h
    simp [expectedStreamRecs] at h
  | cons item rest ih =>
    intro i p n j r h
    cases j with
    | zero =>
      simp only [expectedStreamRecs, List.getElem?_cons_zero, Option.some.injEq] at h
      subst h
      simp
    | succ j =>
      simp only [expectedStreamRecs, List.getElem?_cons_succ] at h
      obtain ⟨h1, h2, h3⟩ := ih (i + 1) (some n) (n + 1) j r h
      refine ⟨?_, by omega, ?_⟩
      · rw [h1]
        have e : i + 1 + j = i + (j + 1) := by omega
        rw [e]
      · rcases j with _ | j2
        · simpa using h3
        · simp only [Nat.succ_ne_zero, if_neg, if_false] at h3 ⊢
          rw [h3]
          congr 1
          omega

/-- Tail phase of the streamed list loop: once the index has reached
`initialCount`, every remaining item is turned into one payload record (no
inline completion), appending exactly the `expectedStreamRecs` and advancing
the id counter, while the accumulated prefix becomes the returned list. -/
theorem listLoop_stream_tail (ctx : ExecutionContext) (itemType : GQLType)
    (fieldNodes : List FieldNode) (info : ResolveInfo) (basePath : Path)
    (sv : StreamValues) (rec : Option Nat) :
    ∀ (items : List JSValue) (fuel index : Nat) (prev : Option Nat)
      (acc : List JSValue) (st : ExecState),
      sv.initialCount ≤ (index : ℚ) → items.length < fuel →
      interp ctx fuel
          (.listLoop itemType fieldNodes info basePath (some sv) items index rec prev acc) st =
        (.ok (.arr acc.reverse),
         { st with
           payloads := st.payloads ++
             expectedStreamRecs basePath sv.label items index prev st.nextId
           nextId := st.nextId + items.length }) := by
  intro items
  induction items with
  | nil =>
    intro fuel index prev acc st hk hf
    cases fuel with
    | zero => simp at hf
    | succ f => simp [interp, expectedStreamRecs]
  | cons item rest ih =>
    intro fuel index prev acc st hk hf
    cases fuel with
    | zero => simp at hf
    | succ f =>
      have hk2 : sv.initialCount ≤ ((index + 1 : Nat) : ℚ) :=
        le_trans hk (by exact_mod_cast Nat.le_succ index)
      have hf2 : rest.length < f := by
        simp only [List.length_cons] at hf
        omega
      simp only [interp]
      rw [if_pos hk]
      simp only [executeStreamField]
      rw [ih f (index + 1) (some st.nextId) acc _ hk2 hf2]
      simp [expectedStreamRecs, List.append_assoc, Nat.add_assoc, Nat.add_comm,
        Nat.add_left_comm]

/-- Lockstep lemma: while the index stays below `initialCount`, the streamed
loop behaves exactly like the stream-free loop; when the stream-free loop over
the prefix `xs` finishes with accumulated results `vs` and state `st₁`, the
streamed loop over `xs ++ ys` continues on `ys` from there. -/
theorem listLoop_lockstep (ctx : ExecutionContext) (itemType : GQLType)
    (fieldNodes : List FieldNode) (info : ResolveInfo) (basePath : Path)
    (sv : StreamValues) (rec : Option Nat) :
    ∀ (xs ys : List JSValue) (fuel index : Nat) (prev : Option Nat)
      (acc vs : List JSValue) (st st₁ : ExecState),
      ((index : ℚ) + xs.length ≤ sv.initialCount) →
      interp ctx fuel
          (.listLoop itemType fieldNodes info basePath none xs index rec prev acc) st =
        (.ok (.arr vs), st₁) →
      interp ctx fuel
          (.listLoop itemType fieldNodes info basePath (some sv) (xs ++ ys) index rec prev acc)
          st =
        interp ctx (fuel - xs.length)
          (.listLoop itemType fieldNodes info basePath (some sv) ys (index + xs.length) rec
            prev vs.reverse) st₁ := by
  intro xs
  induction xs with
  | nil =>
    intro ys fuel index prev acc vs st st₁ hle h
    cases fuel with
    | zero => simp [interp] at h
    | succ f =>
      simp only [interp, Prod.mk.injEq, Except.ok.injEq, JSValue.arr.injEq] at h
      obtain ⟨h1, h2⟩ := h
      subst h2
      simp only [List.nil_append, List.length_nil, Nat.sub_zero, Nat.add_zero]
      rw [← h1, List.reverse_reverse]
  | cons x xs ih =>
    intro ys fuel index prev acc vs st st₁ hle h
    cases fuel with
    | zero => simp [interp] at h
    | succ f =>
      have hxs : (0 : ℚ) ≤ (xs.length : ℚ) := Nat.cast_nonneg _
      have hlt : ¬ (sv.initialCount ≤ (index : ℚ)) := by
        simp only [List.length_cons] at hle
        push_cast at hle
        intro hcon
        linarith
      simp only [List.cons_append, interp] at h ⊢
      rw [if_neg hlt]
      rcases hstep : interp ctx f
          (.listItemInline itemType fieldNodes info basePath index x rec) st with ⟨res, st2⟩
      rw [hstep] at h
      cases res with
      | error e => simp at h
      | ok v =>
        have hle2 : ((index + 1 : Nat) : ℚ) + xs.length ≤ sv.initialCount := by
          simp only [List.length_cons] at hle
          push_cast at hle ⊢
          linarith
        dsimp only at h ⊢
        rw [ih ys f (index + 1) prev (v :: acc) vs st2 st₁ hle2 h]
        have e1 : f + 1 - (xs.length + 1) = f - xs.length := by omega
        have e2 : index + (xs.length + 1) = index + 1 + xs.length := by omega
        simp only [List.length_cons, e1, e2]

/-- Claim C4: in a synchronous-iterable list completion with an active
`@stream(initialCount: k)`, the items at indices below `k` are completed
inline exactly as without streaming (giving the initial list value `vs`), and
every item at index at least `k` is not completed inline but produces one
payload record: paths end in the item's integer index, ids are consecutive,
and each record's data promise is sequenced after the previous record's (the
first after the enclosing record), preserving index order. -/
theorem c4_stream_list_records (ctx : ExecutionContext) (fuel : Nat) (itemType : GQLType)
    (fieldNodes : List FieldNode) (info : ResolveInfo) (path : Path) (items : List JSValue)
    (k : Nat) (label : Option String) (rec : Option Nat) (st st₁ : ExecState)
    (vs : List JSValue)
    (hstream : getStreamValues fieldNodes =
      .ok (some { initialCount := (k : ℚ), label := label }))
    (hk : k ≤ items.length) (hfuel : items.length < fuel)
    (hinline : completeListLoop ctx fuel itemType fieldNodes info path none (items.take k) 0
        rec rec [] st = (.ok (.arr vs), st₁)) :
    completeListValue ctx (fuel + 1) itemType fieldNodes info path (.arr items) rec st =
      (.ok (.arr vs),
       { st₁ with
         payloads := st₁.payloads ++
           expectedStreamRecs path label (items.drop k) k rec st₁.nextId
         nextId := st₁.nextId + (items.length - k) }) ∧
    (∀ j r, (expectedStreamRecs path label (items.drop k) k rec st₁.nextId)[j]? = some r →
      r.path = some (addPath path (.idx (k + j))) ∧
      r.id = st₁.nextId + j ∧
      r.parent = (if j = 0 then rec else some (st₁.nextId + j - 1))) := by
  constructor
  · have hlen : (items.take k).length = k := by
      simp [List.length_take, Nat.min_eq_left hk]
    simp only [completeListLoop] at hinline
    simp only [completeListValue, interp, hstream]
    conv_lhs => rw [← List.take_append_drop k items]
    have hlock := listLoop_lockstep ctx itemType fieldNodes info path
      ⟨(k : ℚ), label⟩ rec (items.take k) (items.drop k) fuel 0
      rec [] vs st st₁ (by rw [hlen]; push_cast; simp) hinline
    rw [hlock, hlen]
    have hf2 : (items.drop k).length < fuel - k := by
      simp only [List.length_drop]
      omega
    have htail := listLoop_stream_tail ctx itemType fieldNodes info path
      ⟨(k : ℚ), label⟩ rec (items.drop k) (fuel - k) (0 + k)
      rec vs.reverse st₁ (by push_cast; simp) hf2
    rw [htail]
    simp [List.length_drop]
  · intro j r h
    exact expectedStreamRecs_get path label (items.drop k) k rec st₁.nextId j r h

/-- The resolve info of a streamed list field. -/
def listInfo : ResolveInfo :=
  { fieldName := "list", parentTypeName := "Q", path := [.field "list"] }

/-- Witness for C4: `[10, 20, 30]` with `@stream(initialCount: 1)` completes
`[10]` inline and appends one record per remaining item with paths
`["list", 1]` and `["list", 2]`, chained in index order. -/
theorem c4_stream_list_records_witness :
    completeListValue s3Ctx 6 (.named "Int") [streamOneNode] listInfo [.field "list"]
        (.arr [.num 10, .num 20, .num 30]) none {} =
      (.ok (.arr [.num 10]),
       { payloads := expectedStreamRecs [.field "list"] none [.num 20, .num 30] 1 none 0,
         nextId := 2 }) :=
  (c4_stream_list_records s3Ctx 5 (.named "Int") [streamOneNode] listInfo [.field "list"]
    [.num 10, .num 20, .num 30] 1 none none {} {} [.num 10] rfl (by decide) (by decide)
    rfl).1

end GraphQLExec
